import Mathlib

/-!
Verification of the request-logger service (`src/app.py`).

The development shallowly embeds the program's state and operations:

* the bounded request history `requests_log = deque(maxlen=100)` together
  with `appendleft` and the `GET /api/requests` handler `get_requests`;
* the SSE broadcast machinery `sse_clients` / `notify_clients`, where each
  subscriber owns a FIFO queue (`asyncio.Queue`) and a failed `put` leads to
  removal from the registry;
* the catch-all ingestion route `catch_all` with its reserved-path check,
  `format_request`, and the JSON acknowledgment;
* the SSE serving loop of the `events` endpoint (queue wait with a 30 second
  timeout, keep-alive comments, removal on termination);
* the body decoding `body.decode('utf-8', errors='replace')`, embedded as an
  executable UTF-8 decoder with replacement-character substitution.

External library calls that are not part of the repository (`json.dumps`,
`datetime.now`) are passed in as parameters (`dumps`, `now`).
-/

/-! ## The bounded request store (`requests_log = deque(maxlen=100)`) -/

/-- Capacity of the request history: `deque(maxlen=100)` in `src/app.py`. -/
def STORE_CAP : Nat := 100

/-- Model of `requests_log.appendleft(x)` on a `deque(maxlen=100)`: the new element
becomes the leftmost (newest) entry and, when the deque is full, the
rightmost (oldest) entry is discarded.  The store is represented as a list
in deque order, index 0 being the newest element. -/
def pyAppendleft (log : List α) (e : α) : List α :=
  (e :: log).take STORE_CAP

/-- The `GET /api/requests` handler: `return list(requests_log)`; the result
lists the stored events newest-first. -/
def get_requests (requests_log : List α) : List α :=
  requests_log

/-- Running a sequence of ingestions against an initially-empty store:
each arriving event is `appendleft`-ed in order. -/
def runAppends (es : List α) : List α :=
  es.foldl pyAppendleft []

/-! ## The broadcast hub (`sse_clients` / `notify_clients`) -/

/-- One SSE subscriber: its queue (`asyncio.Queue` of already-framed
messages, FIFO) plus a flag modelling a queue whose `put` permanently
fails (the broad `except` branch of `notify_clients`).  `sid` models the
object identity used by `list.remove`. -/
structure Subscriber (M : Type) where
  sid : Nat
  broken : Bool
  queue : List M
  deriving DecidableEq

/-- Model of `await client_queue.put(message)`: appends to the queue's tail, or
fails (`none`) when the queue is broken. -/
def queuePut (s : Subscriber M) (m : M) : Option (Subscriber M) :=
  if s.broken then none else some { s with queue := s.queue ++ [m] }

/-- Fan-out of one already-framed message, as `notify_clients` performs it:
iterate over a copy `list(sse_clients)`, try `put` on each queue, and on
failure remove that subscriber from `sse_clients`.  The net effect on the
registry is to keep (in order) exactly the subscribers whose `put`
succeeded, with the message appended to their queues. -/
def notifyMsg (clients : List (Subscriber M)) (m : M) : List (Subscriber M) :=
  clients.filterMap (fun s => queuePut s m)

/-- The SSE frame built in `notify_clients`:
`message = f"data: {json.dumps(request_data)}\n\n"`. -/
def sseMessage (dumps : E → String) (e : E) : String :=
  "data: " ++ dumps e ++ "\n\n"

/-- Model of `notify_clients(request_data)`: frame the event as an SSE `data:`
message and fan it out to every registered subscriber. -/
def notify_clients (dumps : E → String) (clients : List (Subscriber String)) (e : E) :
    List (Subscriber String) :=
  notifyMsg clients (sseMessage dumps e)

/-- Registration in the `events` endpoint: `sse_clients.append(client_queue)`
with a fresh empty queue. -/
def subscribe (clients : List (Subscriber M)) (sid : Nat) : List (Subscriber M) :=
  clients ++ [{ sid := sid, broken := false, queue := [] }]

/-- Publishing a sequence of events one after the other. -/
def publishAll (dumps : E → String) (clients : List (Subscriber String)) (evs : List E) :
    List (Subscriber String) :=
  evs.foldl (notify_clients dumps) clients

/-- Python's `list.remove(x)` applied to the subscriber registry (the
`finally: sse_clients.remove(client_queue)` of the `events` endpoint):
removes the first occurrence, or raises `ValueError` when absent. -/
def pyListRemove (clients : List (Subscriber M)) (sid : Nat) :
    Except String (List (Subscriber M)) :=
  match clients with
  | [] => .error "ValueError"
  | c :: rest =>
    if c.sid = sid then .ok rest
    else (pyListRemove rest sid).map (fun l => c :: l)

/-! ## UTF-8 decoding with replacement
(`body.decode('utf-8', errors='replace')` in `format_request`) -/

/-- The Unicode replacement character U+FFFD substituted for each maximal
ill-formed subsequence by Python's `errors='replace'` handler. -/
def repChar : Char := Char.ofNat 0xFFFD

/-- Lower bound for the first continuation byte of a multi-byte sequence,
as a function of the lead byte (UTF-8 excludes overlong encodings and
code points above U+10FFFF). -/
def cont2lo (b : Nat) : Nat :=
  if b = 0xE0 then 0xA0 else if b = 0xF0 then 0x90 else 0x80

/-- Upper bound for the first continuation byte of a multi-byte sequence,
as a function of the lead byte (UTF-8 excludes surrogates and code points
above U+10FFFF). -/
def cont2hi (b : Nat) : Nat :=
  if b = 0xED then 0x9F else if b = 0xF4 then 0x8F else 0xBF

/-- Model of `bytes.decode('utf-8', errors='replace')`: strict UTF-8 decoding where
every maximal ill-formed subsequence is replaced by U+FFFD.  Total on all
byte lists — decoding never fails. -/
def utf8DecodeReplace : List Nat → List Char
  | [] => []
  | b :: bs =>
    if b < 0x80 then Char.ofNat b :: utf8DecodeReplace bs
    else if 0xC2 ≤ b ∧ b ≤ 0xDF then
      match bs with
      | [] => [repChar]
      | b1 :: bs1 =>
        if 0x80 ≤ b1 ∧ b1 ≤ 0xBF then
          Char.ofNat ((b - 0xC0) * 0x40 + (b1 - 0x80)) :: utf8DecodeReplace bs1
        else repChar :: utf8DecodeReplace (b1 :: bs1)
    else if 0xE0 ≤ b ∧ b ≤ 0xEF then
      match bs with
      | [] => [repChar]
      | b1 :: bs1 =>
        if cont2lo b ≤ b1 ∧ b1 ≤ cont2hi b then
          match bs1 with
          | [] => [repChar]
          | b2 :: bs2 =>
            if 0x80 ≤ b2 ∧ b2 ≤ 0xBF then
              Char.ofNat ((b - 0xE0) * 0x1000 + (b1 - 0x80) * 0x40 + (b2 - 0x80)) ::
                utf8DecodeReplace bs2
            else repChar :: utf8DecodeReplace (b2 :: bs2)
        else repChar :: utf8DecodeReplace (b1 :: bs1)
    else if 0xF0 ≤ b ∧ b ≤ 0xF4 then
      match bs with
      | [] => [repChar]
      | b1 :: bs1 =>
        if cont2lo b ≤ b1 ∧ b1 ≤ cont2hi b then
          match bs1 with
          | [] => [repChar]
          | b2 :: bs2 =>
            if 0x80 ≤ b2 ∧ b2 ≤ 0xBF then
              match bs2 with
              | [] => [repChar]
              | b3 :: bs3 =>
                if 0x80 ≤ b3 ∧ b3 ≤ 0xBF then
                  Char.ofNat ((b - 0xF0) * 0x40000 + (b1 - 0x80) * 0x1000 +
                      (b2 - 0x80) * 0x40 + (b3 - 0x80)) :: utf8DecodeReplace bs3
                else repChar :: utf8DecodeReplace (b3 :: bs3)
            else repChar :: utf8DecodeReplace (b2 :: bs2)
        else repChar :: utf8DecodeReplace (b1 :: bs1)
    else repChar :: utf8DecodeReplace bs
termination_by bs => bs.length
decreasing_by all_goals (simp only [List.length_cons]; omega)

/-- UTF-8 encoding of a single unicode scalar value. -/
def utf8EncodeChar (c : Char) : List Nat :=
  if c.toNat < 0x80 then [c.toNat]
  else if c.toNat < 0x800 then
    [0xC0 + c.toNat / 0x40, 0x80 + c.toNat % 0x40]
  else if c.toNat < 0x10000 then
    [0xE0 + c.toNat / 0x1000, 0x80 + c.toNat / 0x40 % 0x40, 0x80 + c.toNat % 0x40]
  else
    [0xF0 + c.toNat / 0x40000, 0x80 + c.toNat / 0x1000 % 0x40,
     0x80 + c.toNat / 0x40 % 0x40, 0x80 + c.toNat % 0x40]

/-- UTF-8 encoding of a sequence of characters. -/
def utf8Encode (s : List Char) : List Nat :=
  s.flatMap utf8EncodeChar

/-- The body field computed by `format_request`:
`body.decode('utf-8', errors='replace') if body else ""`. -/
def decodeBody (body : List Nat) : List Char :=
  if body.isEmpty then [] else utf8DecodeReplace body

/-! ## The ingestion route (`catch_all`) -/

/-- A parsed inbound HTTP request as the transport layer hands it to the
handler.  `path` is the catch-all route parameter `{path:path}`, i.e. the
URL path with its leading slash stripped; `body` is the raw byte content;
`client` is `request.client.host` when available. -/
structure Req where
  method : String
  path : String
  query_params : List (String × String)
  headers : List (String × String)
  body : List Nat
  client : Option String
  deriving DecidableEq

/-- The logged record built by `format_request`: timestamp, method, URL
path (with leading slash, `request.url.path`), query parameters, headers,
decoded body and client address. -/
structure Event where
  timestamp : String
  method : String
  path : String
  query_params : List (String × String)
  headers : List (String × String)
  body : List Char
  client : String
  deriving DecidableEq

/-- Model of `format_request(request, body)`: builds the Event dictionary.  `now`
stands for `datetime.now().isoformat()`. -/
def format_request (now : String) (r : Req) : Event :=
  { timestamp := now
    method := r.method
    path := "/" ++ r.path
    query_params := r.query_params
    headers := r.headers
    body := decodeBody r.body
    client := r.client.getD "unknown" }

/-- The JSON bodies returned by `catch_all`: either the internal-endpoint
notice or the `{status, message, timestamp}` acknowledgment. -/
inductive Resp where
  | internal (message : String)
  | logged (status message timestamp : String)
  deriving DecidableEq

/-- The module-level mutable state of `src/app.py`: the bounded history
`requests_log` and the subscriber registry `sse_clients`. -/
structure ServerState where
  requests_log : List Event
  sse_clients : List (Subscriber String)
  deriving DecidableEq

/-- The reserved internal paths skipped by the catch-all handler. -/
def reserved_paths : List String := ["", "events", "api/requests"]

/-- The catch-all route handler: requests to a reserved path only get the
internal-endpoint notice; any other request is formatted, appended
(leftmost) to `requests_log`, fanned out to the SSE subscribers, and
acknowledged with the recorded timestamp. -/
def catch_all (dumps : Event → String) (now : String) (st : ServerState) (r : Req) :
    ServerState × Resp :=
  if r.path ∈ reserved_paths then
    (st, .internal "This is an internal endpoint")
  else
    let request_data := format_request now r
    ({ requests_log := pyAppendleft st.requests_log request_data
       sse_clients := notify_clients dumps st.sse_clients request_data },
     .logged "logged" "Request has been logged successfully" request_data.timestamp)

/-! ## The SSE serving loop (`events` endpoint) -/

/-- The keep-alive timeout of the serving loop:
`asyncio.wait_for(client_queue.get(), timeout=30.0)`. -/
def events_timeout : Nat := 30

/-- One iteration of the serving loop, for a given disconnect status and
queue content.  Returns `none` when the loop breaks (client disconnected),
otherwise the yielded string, the wait time this iteration spent blocked
(the full 30-unit timeout when nothing was queued, else no timeout expiry),
and the remaining queue. -/
def serveStep (disconnected : Bool) (q : List String) :
    Option (String × Nat × List String) :=
  if disconnected then none
  else
    match q with
    | m :: rest => some (m, 0, rest)
    | [] => some (": keep-alive\n\n", events_timeout, [])

/-- The outputs of `n` iterations of the serving loop with no concurrently
arriving messages: each element is a yielded string paired with the wait
time of its iteration. -/
def serveOutputs (disconnected : Bool) : List String → Nat → List (String × Nat)
  | _, 0 => []
  | q, n + 1 =>
    match serveStep disconnected q with
    | none => []
    | some (m, t, q') => (m, t) :: serveOutputs disconnected q' n

/-! ## Store lemmas -/

theorem take_append_take (a b : List α) (n m : Nat) (h : n ≤ m) :
    (a ++ b.take m).take n = (a ++ b).take n := by
  induction a generalizing n with
  | nil =>
    simp only [List.nil_append, List.take_take]
    rw [Nat.min_eq_left h]
  | cons x a ih =>
    cases n with
    | zero => simp
    | succ k =>
      simp only [List.cons_append, List.take_succ_cons]
      rw [ih k (by omega)]

theorem foldl_pyAppendleft (es : List α) :
    ∀ l : List α, l.length ≤ STORE_CAP →
      es.foldl pyAppendleft l = (es.reverse ++ l).take STORE_CAP := by
  induction es with
  | nil =>
    intro l hl
    simp only [List.foldl_nil, List.reverse_nil, List.nil_append]
    exact (List.take_of_length_le hl).symm
  | cons e es ih =>
    intro l hl
    have hlen : (pyAppendleft l e).length ≤ STORE_CAP := by
      simp [pyAppendleft]
    calc (e :: es).foldl pyAppendleft l
        = es.foldl pyAppendleft (pyAppendleft l e) := by rfl
      _ = (es.reverse ++ pyAppendleft l e).take STORE_CAP := ih _ hlen
      _ = (es.reverse ++ (e :: l)).take STORE_CAP := by
            rw [pyAppendleft, take_append_take _ _ _ _ (Nat.le_refl _)]
      _ = ((e :: es).reverse ++ l).take STORE_CAP := by
            simp [List.reverse_cons, List.append_assoc]

theorem runAppends_eq (es : List α) :
    runAppends es = es.reverse.take STORE_CAP := by
  have h := foldl_pyAppendleft es ([] : List α) (by simp)
  simpa [runAppends] using h

/-! ## Claim theorems: the bounded store -/

/-- C1: for every sequence of at most 100 appended events, the
`GET /api/requests` snapshot returns exactly as many events as were
appended, newest-first, i.e. equal to the reverse of insertion order. -/
theorem snapshot_is_reverse_of_short_history (es : List α) (h : es.length ≤ 100) :
    get_requests (runAppends es) = es.reverse ∧
    (get_requests (runAppends es)).length = es.length := by
  have hrev : es.reverse.length ≤ STORE_CAP := by
    rw [List.length_reverse]; exact h
  constructor
  · rw [get_requests, runAppends_eq, List.take_of_length_le hrev]
  · rw [get_requests, runAppends_eq, List.take_of_length_le hrev, List.length_reverse]

/-- Witness for C1: appending A, B, C in that order yields the snapshot
[C, B, A] of length 3. -/
theorem snapshot_is_reverse_of_short_history_witness :
    get_requests (runAppends ["A", "B", "C"]) = ["C", "B", "A"] ∧
    (get_requests (runAppends ["A", "B", "C"])).length = 3 := by
  exact snapshot_is_reverse_of_short_history ["A", "B", "C"] (by decide)

/-- C2: with more than 100 appended events the snapshot holds exactly the
most recent 100, newest-first; the store's size never exceeds 100; and an
insert at capacity evicts the oldest (rightmost) entry. -/
theorem snapshot_caps_at_hundred :
    (∀ es : List α, (runAppends es).length ≤ 100) ∧
    (∀ (log : List α) (e : α), log.length = 100 →
       pyAppendleft log e = e :: log.dropLast) ∧
    (∀ es : List α, 100 < es.length →
       get_requests (runAppends es) = (es.drop (es.length - 100)).reverse ∧
       (get_requests (runAppends es)).length = 100) := by
  refine ⟨?_, ?_, ?_⟩
  · intro es
    rw [runAppends_eq]
    simp [STORE_CAP]
  · intro log e hlen
    rw [pyAppendleft, STORE_CAP, List.take_succ_cons, List.dropLast_eq_take, hlen]
  · intro es h
    have hdrop : es.reverse.take 100 = (es.drop (es.length - 100)).reverse :=
      List.take_reverse
    constructor
    · rw [get_requests, runAppends_eq, STORE_CAP, hdrop]
    · rw [get_requests, runAppends_eq, STORE_CAP, List.length_take,
        List.length_reverse]
      omega

/-! ## Hub lemmas -/

theorem notifyMsg_cons_ok {M : Type} (c : Subscriber M) (cs : List (Subscriber M)) (m : M)
    (hc : c.broken = false) :
    notifyMsg (c :: cs) m = { c with queue := c.queue ++ [m] } :: notifyMsg cs m := by
  simp [notifyMsg, List.filterMap_cons, queuePut, hc]

theorem notifyMsg_all_ok {M : Type} (cs : List (Subscriber M)) (m : M)
    (h : ∀ s ∈ cs, s.broken = false) :
    notifyMsg cs m = cs.map (fun s => { s with queue := s.queue ++ [m] }) := by
  induction cs with
  | nil => rfl
  | cons c cs ih =>
    have hc : c.broken = false := h c (List.mem_cons_self c cs)
    have hrest : ∀ s ∈ cs, s.broken = false := fun s hs => h s (List.mem_cons_of_mem c hs)
    rw [notifyMsg_cons_ok c cs m hc, ih hrest, List.map_cons]

theorem notify_clients_all_ok (dumps : E → String) (cs : List (Subscriber String)) (e : E)
    (h : ∀ s ∈ cs, s.broken = false) :
    notify_clients dumps cs e
      = cs.map (fun s => { s with queue := s.queue ++ [sseMessage dumps e] }) :=
  notifyMsg_all_ok cs (sseMessage dumps e) h

theorem publishAll_all_ok (dumps : E → String) (evs : List E) :
    ∀ cs : List (Subscriber String), (∀ s ∈ cs, s.broken = false) →
      publishAll dumps cs evs
        = cs.map (fun s => { s with queue := s.queue ++ evs.map (sseMessage dumps) }) := by
  induction evs with
  | nil =>
    intro cs _
    simp only [publishAll, List.foldl_nil, List.map_nil, List.append_nil]
    have hid : (fun s : Subscriber String => { s with queue := s.queue }) = fun s => s := by
      funext s; rfl
    rw [hid, List.map_id']
  | cons e evs ih =>
    intro cs h
    have step : publishAll dumps cs (e :: evs)
        = publishAll dumps (notify_clients dumps cs e) evs := rfl
    rw [step, notify_clients_all_ok dumps cs e h,
      ih _ (by intro s hs; obtain ⟨t, ht, rfl⟩ := List.mem_map.mp hs; exact h t ht)]
    rw [List.map_map]
    refine List.map_congr_left ?_
    intro s _
    simp [Function.comp]

/-! ## Claim theorems: fan-out -/

/-- C3: publishing an event delivers exactly one copy of its framed message
to the tail of every registered subscriber's queue, preserving order; a
subscriber registered after a publish does not receive that event: after
subscribe S1, publish E1, subscribe S2, publish E2, S1's queue holds the
messages of [E1, E2] and S2's queue holds only that of E2. -/
theorem publish_delivers_exactly_once :
    (∀ (dumps : E → String) (cs : List (Subscriber String)) (e : E),
       (∀ s ∈ cs, s.broken = false) →
       notify_clients dumps cs e
         = cs.map (fun s => { s with queue := s.queue ++ [sseMessage dumps e] })) ∧
    (∀ (dumps : E → String) (e1 e2 : E),
       (notify_clients dumps (subscribe (notify_clients dumps (subscribe [] 1) e1) 2) e2).map
           (fun s => s.queue)
         = [[sseMessage dumps e1, sseMessage dumps e2], [sseMessage dumps e2]]) := by
  constructor
  · exact fun dumps cs e h => notify_clients_all_ok dumps cs e h
  · intro dumps e1 e2
    rfl

/-- Witness for C3: a concrete registry of two healthy subscribers, each of
which receives the published message exactly once. -/
theorem publish_delivers_exactly_once_witness :
    notify_clients (fun s : String => s) [⟨1, false, []⟩, ⟨2, false, ["old"]⟩] "E"
      = [⟨1, false, [sseMessage (fun s : String => s) "E"]⟩,
         ⟨2, false, ["old", sseMessage (fun s : String => s) "E"]⟩] := by
  exact publish_delivers_exactly_once.1 (fun s : String => s)
    [⟨1, false, []⟩, ⟨2, false, ["old"]⟩] "E" (by decide)

/-- C4: a subscriber whose queue permanently fails `put` is removed from the
registry by the first failed publish, receives nothing afterwards (its id no
longer appears in the registry), and every other subscriber receives exactly
the events published; the fan-out itself never fails. -/
theorem broken_subscriber_reaped (dumps : E → String)
    (a b : List (Subscriber String)) (bad : Subscriber String) (e : E) (es : List E)
    (hok : ∀ s ∈ a ++ b, s.broken = false) (hbad : bad.broken = true) :
    notify_clients dumps (a ++ bad :: b) e
      = (a ++ b).map (fun s => { s with queue := s.queue ++ [sseMessage dumps e] }) ∧
    ((∀ s ∈ a ++ b, s.sid ≠ bad.sid) →
      ∀ s ∈ notify_clients dumps (a ++ bad :: b) e, s.sid ≠ bad.sid) ∧
    publishAll dumps (a ++ bad :: b) (e :: es)
      = (a ++ b).map
          (fun s => { s with queue := s.queue ++ (e :: es).map (sseMessage dumps) }) := by
  have hfirst : notify_clients dumps (a ++ bad :: b) e
      = (a ++ b).map (fun s => { s with queue := s.queue ++ [sseMessage dumps e] }) := by
    simp only [notify_clients, notifyMsg, List.filterMap_append, List.filterMap_cons]
    rw [show queuePut bad (sseMessage dumps e) = none by simp [queuePut, hbad]]
    have ha : ∀ s ∈ a, s.broken = false := fun s hs => hok s (List.mem_append_left _ hs)
    have hb : ∀ s ∈ b, s.broken = false := fun s hs => hok s (List.mem_append_right _ hs)
    have laux : ∀ (l : List (Subscriber String)), (∀ s ∈ l, s.broken = false) →
        l.filterMap (fun s => queuePut s (sseMessage dumps e))
          = l.map (fun s => { s with queue := s.queue ++ [sseMessage dumps e] }) :=
      fun l hl => notifyMsg_all_ok l _ hl
    rw [laux a ha, laux b hb, List.map_append]
  refine ⟨hfirst, ?_, ?_⟩
  · intro hsid s hs
    rw [hfirst] at hs
    obtain ⟨t, ht, rfl⟩ := List.mem_map.mp hs
    exact hsid t ht
  · have step : publishAll dumps (a ++ bad :: b) (e :: es)
        = publishAll dumps (notify_clients dumps (a ++ bad :: b) e) es := rfl
    rw [step, hfirst,
      publishAll_all_ok dumps es _
        (by intro s hs; obtain ⟨t, ht, rfl⟩ := List.mem_map.mp hs; exact hok t ht),
      List.map_map]
    refine List.map_congr_left ?_
    intro s _
    simp [Function.comp]

/-- Witness for C4: one healthy subscriber on each side of a broken one; the
broken one is dropped by the first publish and the healthy ones receive both
published events. -/
theorem broken_subscriber_reaped_witness :
    notify_clients (fun s : String => s) ([⟨1, false, []⟩] ++ ⟨9, true, []⟩ :: [⟨2, false, []⟩]) "E1"
      = [⟨1, false, [sseMessage (fun s : String => s) "E1"]⟩,
         ⟨2, false, [sseMessage (fun s : String => s) "E1"]⟩] ∧
    publishAll (fun s : String => s) ([⟨1, false, []⟩] ++ ⟨9, true, []⟩ :: [⟨2, false, []⟩])
        ["E1", "E2"]
      = [⟨1, false, [sseMessage (fun s : String => s) "E1", sseMessage (fun s : String => s) "E2"]⟩,
         ⟨2, false, [sseMessage (fun s : String => s) "E1", sseMessage (fun s : String => s) "E2"]⟩] := by
  have h := broken_subscriber_reaped (fun s : String => s)
    [⟨1, false, []⟩] [⟨2, false, []⟩] ⟨9, true, []⟩ "E1" ["E2"] (by decide) rfl
  exact ⟨h.1, h.2.2⟩

/-! ## Claim C5: unsubscribing an already-removed handle -/

/-- C5 counterexample: removing a handle from a registry that no longer
contains it is not a no-op — Python's `list.remove` raises `ValueError`.
With the registry already empty, the removal performed by the serving
loop's cleanup yields the error, not the unchanged registry. -/
theorem unsubscribe_not_idempotent_counterexample :
    pyListRemove ([] : List (Subscriber String)) 1 = Except.error "ValueError" ∧
    pyListRemove ([] : List (Subscriber String)) 1 ≠ Except.ok [] := by
  refine ⟨rfl, ?_⟩
  intro h
  exact Except.noConfusion h

/-- C5 (amended): removal of a subscriber handle from the registry is by
first occurrence and is not idempotent: if the handle is absent the removal
raises `ValueError`; in particular, for a subscriber already reaped by a
failed publish delivery, the serving loop's terminating removal raises
rather than being a no-op. -/
theorem unsubscribe_absent_raises :
    (∀ (cs : List (Subscriber String)) (sid : Nat),
       (∀ s ∈ cs, s.sid ≠ sid) → pyListRemove cs sid = Except.error "ValueError") ∧
    (∀ (c : Subscriber String) (m : String), c.broken = true →
       notifyMsg [c] m = [] ∧
       pyListRemove (notifyMsg [c] m) c.sid = Except.error "ValueError") := by
  constructor
  · intro cs sid h
    induction cs with
    | nil => rfl
    | cons c rest ih =>
      have hc : c.sid ≠ sid := h c (List.mem_cons_self c rest)
      have hrest : ∀ s ∈ rest, s.sid ≠ sid := fun s hs => h s (List.mem_cons_of_mem c hs)
      rw [pyListRemove, if_neg hc, ih hrest]
      rfl
  · intro c m hc
    have hempty : notifyMsg [c] m = [] := by
      simp [notifyMsg, queuePut, hc]
    exact ⟨hempty, by rw [hempty]; rfl⟩

/-- Witness for the amended C5: a broken subscriber is reaped by one failed
publish, and the subsequent removal of its handle raises `ValueError`. -/
theorem unsubscribe_absent_raises_witness :
    notifyMsg [(⟨7, true, []⟩ : Subscriber String)] "m" = [] ∧
    pyListRemove (notifyMsg [(⟨7, true, []⟩ : Subscriber String)] "m") 7
      = Except.error "ValueError" := by
  exact unsubscribe_absent_raises.2 ⟨7, true, []⟩ "m" rfl

/-- Witness for C2: 101 appends of the same event leave exactly the newest
100 in the snapshot. -/
theorem snapshot_caps_at_hundred_witness :
    get_requests (runAppends (List.replicate 101 (0 : Nat))) = List.replicate 100 (0 : Nat) ∧
    (get_requests (runAppends (List.replicate 101 (0 : Nat)))).length = 100 := by
  have h := snapshot_caps_at_hundred.2.2 (List.replicate 101 (0 : Nat)) (by simp)
  refine ⟨h.1.trans (by decide), h.2⟩

/-! ## Claim theorems: the catch-all route -/

/-- C7: a request to a reserved path (empty path, `events`, `api/requests`)
creates no Event, leaves the store and the subscriber queues unchanged
(nothing is published), and returns the JSON notice that the path is
internal. -/
theorem reserved_path_not_logged (dumps : Event → String) (now : String)
    (st : ServerState) (r : Req) (h : r.path ∈ reserved_paths) :
    catch_all dumps now st r = (st, Resp.internal "This is an internal endpoint") := by
  rw [catch_all, if_pos h]

/-- Witness for C7: a POST to `api/requests` against a non-empty state is a
pure no-op apart from the internal-endpoint notice. -/
theorem reserved_path_not_logged_witness :
    catch_all (fun _ => "J") "t0"
        ⟨[⟨"t", "GET", "/x", [], [], [], "c"⟩], [⟨1, false, []⟩]⟩
        ⟨"POST", "api/requests", [], [], [], none⟩
      = (⟨[⟨"t", "GET", "/x", [], [], [], "c"⟩], [⟨1, false, []⟩]⟩,
         Resp.internal "This is an internal endpoint") := by
  exact reserved_path_not_logged (fun _ => "J") "t0" _ _ (by decide)

/-- C9: for every captured (non-reserved) request the response is the JSON
acknowledgment `{status, message, timestamp}` whose timestamp equals
exactly the timestamp of the Event just appended to the store. -/
theorem ack_timestamp_matches_logged_event (dumps : Event → String) (now : String)
    (st : ServerState) (r : Req) (h : r.path ∉ reserved_paths) :
    (catch_all dumps now st r).2
      = Resp.logged "logged" "Request has been logged successfully"
          (format_request now r).timestamp ∧
    (catch_all dumps now st r).1.requests_log.head? = some (format_request now r) ∧
    (format_request now r).timestamp = now := by
  rw [catch_all, if_neg h]
  refine ⟨rfl, ?_, rfl⟩
  show (pyAppendleft st.requests_log (format_request now r)).head? = _
  rw [pyAppendleft, STORE_CAP, List.take_succ_cons, List.head?_cons]

/-- Witness for C9: a concrete POST to `hook` is acknowledged with the
timestamp of the event that was appended. -/
theorem ack_timestamp_matches_logged_event_witness :
    (catch_all (fun _ => "J") "2024-01-01T00:00:00"
        ⟨[], []⟩ ⟨"POST", "hook", [], [], [], none⟩).2
      = Resp.logged "logged" "Request has been logged successfully"
          (format_request "2024-01-01T00:00:00" ⟨"POST", "hook", [], [], [], none⟩).timestamp ∧
    (catch_all (fun _ => "J") "2024-01-01T00:00:00"
        ⟨[], []⟩ ⟨"POST", "hook", [], [], [], none⟩).1.requests_log.head?
      = some (format_request "2024-01-01T00:00:00" ⟨"POST", "hook", [], [], [], none⟩) ∧
    (format_request "2024-01-01T00:00:00" ⟨"POST", "hook", [], [], [], none⟩).timestamp
      = "2024-01-01T00:00:00" := by
  exact ack_timestamp_matches_logged_event (fun _ => "J") "2024-01-01T00:00:00"
    ⟨[], []⟩ ⟨"POST", "hook", [], [], [], none⟩ (by decide)

/-- C10: the reserved-path test is exact string equality on the slashless
route path: any other path — including extensions of reserved paths such as
`events/x` — leads to an Event being constructed, appended to the store and
fanned out to the subscribers (each healthy subscriber's queue receiving
its framed message). -/
theorem nonreserved_path_logged_and_published (dumps : Event → String) (now : String)
    (st : ServerState) (r : Req) (h : r.path ∉ reserved_paths) :
    (catch_all dumps now st r).1.requests_log
      = pyAppendleft st.requests_log (format_request now r) ∧
    (catch_all dumps now st r).1.sse_clients
      = notify_clients dumps st.sse_clients (format_request now r) ∧
    ((∀ s ∈ st.sse_clients, s.broken = false) →
      (catch_all dumps now st r).1.sse_clients
        = st.sse_clients.map
            (fun s => { s with
              queue := s.queue ++ [sseMessage dumps (format_request now r)] })) := by
  rw [catch_all, if_neg h]
  exact ⟨rfl, rfl, fun hok => notify_clients_all_ok dumps st.sse_clients _ hok⟩

/-- Witness for C10: the path `events/x` merely extends the reserved path
`events`, so it is captured: the event is appended and delivered to the
registered subscriber. -/
theorem nonreserved_path_logged_and_published_witness :
    (catch_all (fun _ => "J") "t0" ⟨[], [⟨1, false, []⟩]⟩
        ⟨"GET", "events/x", [], [], [], none⟩).1.requests_log
      = pyAppendleft [] (format_request "t0" ⟨"GET", "events/x", [], [], [], none⟩) ∧
    (catch_all (fun _ => "J") "t0" ⟨[], [⟨1, false, []⟩]⟩
        ⟨"GET", "events/x", [], [], [], none⟩).1.sse_clients
      = notify_clients (fun _ => "J") [⟨1, false, []⟩]
          (format_request "t0" ⟨"GET", "events/x", [], [], [], none⟩) ∧
    ((∀ s ∈ ([⟨1, false, []⟩] : List (Subscriber String)), s.broken = false) →
      (catch_all (fun _ => "J") "t0" ⟨[], [⟨1, false, []⟩]⟩
          ⟨"GET", "events/x", [], [], [], none⟩).1.sse_clients
        = [⟨1, false, ["data: J\n\n"]⟩]) := by
  exact nonreserved_path_logged_and_published (fun _ => "J") "t0"
    ⟨[], [⟨1, false, []⟩]⟩ ⟨"GET", "events/x", [], [], [], none⟩ (by decide)

/-! ## Claim theorems: the serving loop -/

/-- C8: every delivered Event is emitted as exactly one SSE frame
`data: ` + JSON + two newlines; the loop's blocking wait uses the 30-unit
timeout, and an iteration that times out with nothing queued emits the
comment `: keep-alive` plus two newlines, so a connected idle subscriber
receives a keep-alive after every 30 idle time-units. -/
theorem sse_framing_and_keepalive :
    (∀ (dumps : E → String) (e : E), sseMessage dumps e = "data: " ++ dumps e ++ "\n\n") ∧
    events_timeout = 30 ∧
    (∀ (q : List String) (n : Nat),
       serveOutputs false q n
         = (q.take n).map (fun m => (m, 0)) ++
           List.replicate (n - q.length) (": keep-alive\n\n", events_timeout)) ∧
    (∀ n : Nat, serveOutputs false [] n
       = List.replicate n (": keep-alive\n\n", events_timeout)) := by
  have hgen : ∀ (n : Nat) (q : List String),
      serveOutputs false q n
        = (q.take n).map (fun m => (m, 0)) ++
          List.replicate (n - q.length) (": keep-alive\n\n", events_timeout) := by
    intro n
    induction n with
    | zero => intro q; simp [serveOutputs]
    | succ k ih =>
      intro q
      cases q with
      | nil =>
        simp [serveOutputs, serveStep, ih [], List.replicate_succ]
      | cons m rest =>
        simp [serveOutputs, serveStep, ih rest, List.take_succ_cons, Nat.succ_sub_succ]
  refine ⟨fun dumps e => rfl, rfl, fun q n => hgen n q, fun n => ?_⟩
  rw [hgen n []]
  simp

/-! ## UTF-8 lemmas -/

theorem toNat_ofNat_valid {n : Nat} (h : n.isValidChar) : (Char.ofNat n).toNat = n := by
  rw [Char.ofNat, dif_pos h]
  rfl

theorem utf8DecodeReplace_ascii (b : Nat) (bs : List Nat) (h : b < 0x80) :
    utf8DecodeReplace (b :: bs) = Char.ofNat b :: utf8DecodeReplace bs := by
  rw [utf8DecodeReplace.eq_def]
  simp only [h, if_true, ite_true]

theorem utf8DecodeReplace_two (b b1 : Nat) (bs : List Nat)
    (hb : 0xC2 ≤ b ∧ b ≤ 0xDF) (hb1 : 0x80 ≤ b1 ∧ b1 ≤ 0xBF) :
    utf8DecodeReplace (b :: b1 :: bs)
      = Char.ofNat ((b - 0xC0) * 0x40 + (b1 - 0x80)) :: utf8DecodeReplace bs := by
  rw [utf8DecodeReplace.eq_def]
  simp only [show ¬ b < 0x80 by omega, hb.1, hb.2, hb1.1, hb1.2, and_self, if_false,
    if_true, ite_false, ite_true]

theorem utf8DecodeReplace_three (b b1 b2 : Nat) (bs : List Nat)
    (hb : 0xE0 ≤ b ∧ b ≤ 0xEF) (hb1 : cont2lo b ≤ b1 ∧ b1 ≤ cont2hi b)
    (hb2 : 0x80 ≤ b2 ∧ b2 ≤ 0xBF) :
    utf8DecodeReplace (b :: b1 :: b2 :: bs)
      = Char.ofNat ((b - 0xE0) * 0x1000 + (b1 - 0x80) * 0x40 + (b2 - 0x80)) ::
          utf8DecodeReplace bs := by
  rw [utf8DecodeReplace.eq_def]
  simp only [show ¬ b < 0x80 by omega, show ¬ (0xC2 ≤ b ∧ b ≤ 0xDF) by omega,
    hb.1, hb.2, hb1.1, hb1.2, hb2.1, hb2.2, and_self, if_false, if_true, ite_false, ite_true]

theorem utf8DecodeReplace_four (b b1 b2 b3 : Nat) (bs : List Nat)
    (hb : 0xF0 ≤ b ∧ b ≤ 0xF4) (hb1 : cont2lo b ≤ b1 ∧ b1 ≤ cont2hi b)
    (hb2 : 0x80 ≤ b2 ∧ b2 ≤ 0xBF) (hb3 : 0x80 ≤ b3 ∧ b3 ≤ 0xBF) :
    utf8DecodeReplace (b :: b1 :: b2 :: b3 :: bs)
      = Char.ofNat ((b - 0xF0) * 0x40000 + (b1 - 0x80) * 0x1000 +
          (b2 - 0x80) * 0x40 + (b3 - 0x80)) :: utf8DecodeReplace bs := by
  rw [utf8DecodeReplace.eq_def]
  simp only [show ¬ b < 0x80 by omega, show ¬ (0xC2 ≤ b ∧ b ≤ 0xDF) by omega,
    show ¬ (0xE0 ≤ b ∧ b ≤ 0xEF) by omega,
    hb.1, hb.2, hb1.1, hb1.2, hb2.1, hb2.2, hb3.1, hb3.2, and_self, if_false, if_true,
    ite_false, ite_true]

theorem utf8Encode_nil : utf8Encode [] = [] := rfl

theorem utf8Encode_cons (c : Char) (l : List Char) :
    utf8Encode (c :: l) = utf8EncodeChar c ++ utf8Encode l := by
  simp [utf8Encode]

theorem cont2lo_ge (b : Nat) : 0x80 ≤ cont2lo b := by
  rw [cont2lo]; split_ifs <;> omega

theorem cont2hi_le (b : Nat) : cont2hi b ≤ 0xBF := by
  rw [cont2hi]; split_ifs <;> omega

theorem encodeChar_ofNat_one (b : Nat) (h : b < 0x80) :
    utf8EncodeChar (Char.ofNat b) = [b] := by
  have hv : Nat.isValidChar b := Or.inl (by omega)
  rw [utf8EncodeChar, toNat_ofNat_valid hv, if_pos h]

theorem encodeChar_ofNat_two (m : Nat) (h1 : 0x80 ≤ m) (h2 : m < 0x800) :
    utf8EncodeChar (Char.ofNat m) = [0xC0 + m / 0x40, 0x80 + m % 0x40] := by
  have hv : Nat.isValidChar m := Or.inl (by omega)
  rw [utf8EncodeChar, toNat_ofNat_valid hv, if_neg (by omega), if_pos h2]

theorem encodeChar_ofNat_three (m : Nat) (h1 : 0x800 ≤ m) (h2 : m < 0x10000)
    (h3 : m < 0xD800 ∨ 0xDFFF < m) :
    utf8EncodeChar (Char.ofNat m)
      = [0xE0 + m / 0x1000, 0x80 + m / 0x40 % 0x40, 0x80 + m % 0x40] := by
  have hv : Nat.isValidChar m := by
    rcases h3 with h | h
    · exact Or.inl h
    · exact Or.inr ⟨h, by omega⟩
  rw [utf8EncodeChar, toNat_ofNat_valid hv, if_neg (by omega), if_neg (by omega), if_pos h2]

theorem encodeChar_ofNat_four (m : Nat) (h1 : 0x10000 ≤ m) (h2 : m < 0x110000) :
    utf8EncodeChar (Char.ofNat m)
      = [0xF0 + m / 0x40000, 0x80 + m / 0x1000 % 0x40,
         0x80 + m / 0x40 % 0x40, 0x80 + m % 0x40] := by
  have hv : Nat.isValidChar m := Or.inr ⟨by omega, h2⟩
  rw [utf8EncodeChar, toNat_ofNat_valid hv, if_neg (by omega), if_neg (by omega),
    if_neg (by omega)]

theorem three_byte_range (b b1 b2 m : Nat) (hb : 0xE0 ≤ b ∧ b ≤ 0xEF)
    (hc1 : cont2lo b ≤ b1 ∧ b1 ≤ cont2hi b) (hc2 : 0x80 ≤ b2 ∧ b2 ≤ 0xBF)
    (hm : m = (b - 0xE0) * 0x1000 + (b1 - 0x80) * 0x40 + (b2 - 0x80)) :
    0x800 ≤ m ∧ m < 0x10000 ∧ (m < 0xD800 ∨ 0xDFFF < m) ∧
    0xE0 + m / 0x1000 = b ∧ 0x80 + m / 0x40 % 0x40 = b1 ∧ 0x80 + m % 0x40 = b2 := by
  rcases hc1 with ⟨hlo, hhi⟩
  rw [cont2lo] at hlo
  rw [cont2hi] at hhi
  split_ifs at hlo hhi <;> omega

theorem four_byte_range (b b1 b2 b3 m : Nat) (hb : 0xF0 ≤ b ∧ b ≤ 0xF4)
    (hc1 : cont2lo b ≤ b1 ∧ b1 ≤ cont2hi b) (hc2 : 0x80 ≤ b2 ∧ b2 ≤ 0xBF)
    (hc3 : 0x80 ≤ b3 ∧ b3 ≤ 0xBF)
    (hm : m = (b - 0xF0) * 0x40000 + (b1 - 0x80) * 0x1000 +
        (b2 - 0x80) * 0x40 + (b3 - 0x80)) :
    0x10000 ≤ m ∧ m < 0x110000 ∧
    0xF0 + m / 0x40000 = b ∧ 0x80 + m / 0x1000 % 0x40 = b1 ∧
    0x80 + m / 0x40 % 0x40 = b2 ∧ 0x80 + m % 0x40 = b3 := by
  rcases hc1 with ⟨hlo, hhi⟩
  rw [cont2lo] at hlo
  rw [cont2hi] at hhi
  split_ifs at hlo hhi <;> omega

theorem utf8DecodeReplace_nil : utf8DecodeReplace [] = [] := by
  rw [utf8DecodeReplace.eq_def]

theorem utf8DecodeReplace_encodeChar (c : Char) (bs : List Nat) :
    utf8DecodeReplace (utf8EncodeChar c ++ bs) = c :: utf8DecodeReplace bs := by
  have hv : Nat.isValidChar c.toNat := c.valid
  by_cases h1 : c.toNat < 0x80
  · rw [show utf8EncodeChar c = [c.toNat] by rw [utf8EncodeChar, if_pos h1],
      List.singleton_append, utf8DecodeReplace_ascii _ _ h1, Char.ofNat_toNat]
  · by_cases h2 : c.toNat < 0x800
    · rw [show utf8EncodeChar c = [0xC0 + c.toNat / 0x40, 0x80 + c.toNat % 0x40] by
        rw [utf8EncodeChar, if_neg h1, if_pos h2]]
      simp only [List.cons_append, List.nil_append]
      rw [utf8DecodeReplace_two _ _ _ ⟨by omega, by omega⟩ ⟨by omega, by omega⟩,
        show (0xC0 + c.toNat / 0x40 - 0xC0) * 0x40 + (0x80 + c.toNat % 0x40 - 0x80)
          = c.toNat by omega, Char.ofNat_toNat]
    · by_cases h3 : c.toNat < 0x10000
      · rw [show utf8EncodeChar c
            = [0xE0 + c.toNat / 0x1000, 0x80 + c.toNat / 0x40 % 0x40, 0x80 + c.toNat % 0x40] by
          rw [utf8EncodeChar, if_neg h1, if_neg h2, if_pos h3]]
        simp only [List.cons_append, List.nil_append]
        have hc1 : cont2lo (0xE0 + c.toNat / 0x1000) ≤ 0x80 + c.toNat / 0x40 % 0x40 ∧
            0x80 + c.toNat / 0x40 % 0x40 ≤ cont2hi (0xE0 + c.toNat / 0x1000) := by
          constructor
          · rw [cont2lo]; split_ifs <;> omega
          · rw [cont2hi]; split_ifs <;> omega
        rw [utf8DecodeReplace_three _ _ _ _ ⟨by omega, by omega⟩ hc1 ⟨by omega, by omega⟩,
          show (0xE0 + c.toNat / 0x1000 - 0xE0) * 0x1000 +
              (0x80 + c.toNat / 0x40 % 0x40 - 0x80) * 0x40 + (0x80 + c.toNat % 0x40 - 0x80)
            = c.toNat by omega, Char.ofNat_toNat]
      · rw [show utf8EncodeChar c
            = [0xF0 + c.toNat / 0x40000, 0x80 + c.toNat / 0x1000 % 0x40,
               0x80 + c.toNat / 0x40 % 0x40, 0x80 + c.toNat % 0x40] by
          rw [utf8EncodeChar, if_neg h1, if_neg h2, if_neg h3]]
        simp only [List.cons_append, List.nil_append]
        have hc1 : cont2lo (0xF0 + c.toNat / 0x40000) ≤ 0x80 + c.toNat / 0x1000 % 0x40 ∧
            0x80 + c.toNat / 0x1000 % 0x40 ≤ cont2hi (0xF0 + c.toNat / 0x40000) := by
          constructor
          · rw [cont2lo]; split_ifs <;> omega
          · rw [cont2hi]; split_ifs <;> omega
        rw [utf8DecodeReplace_four _ _ _ _ _ ⟨by omega, by omega⟩ hc1
            ⟨by omega, by omega⟩ ⟨by omega, by omega⟩,
          show (0xF0 + c.toNat / 0x40000 - 0xF0) * 0x40000 +
              (0x80 + c.toNat / 0x1000 % 0x40 - 0x80) * 0x1000 +
              (0x80 + c.toNat / 0x40 % 0x40 - 0x80) * 0x40 + (0x80 + c.toNat % 0x40 - 0x80)
            = c.toNat by omega, Char.ofNat_toNat]

theorem utf8_roundtrip (s : List Char) : utf8DecodeReplace (utf8Encode s) = s := by
  induction s with
  | nil => exact utf8DecodeReplace_nil
  | cons c s ih => rw [utf8Encode_cons, utf8DecodeReplace_encodeChar, ih]

theorem utf8_sound :
    ∀ bs : List Nat, repChar ∉ utf8DecodeReplace bs →
      utf8Encode (utf8DecodeReplace bs) = bs := by
  intro bs
  induction bs using utf8DecodeReplace.induct with
  | case1 =>
    intro _
    rw [utf8DecodeReplace_nil]
    rfl
  | case2 b bs h ih =>
    intro hrep
    rw [utf8DecodeReplace_ascii b bs h] at hrep ⊢
    rw [utf8Encode_cons, encodeChar_ofNat_one b h,
      ih (fun hm => hrep (List.mem_cons_of_mem _ hm))]
    rfl
  | case3 b h0 hb =>
    intro hrep
    rw [utf8DecodeReplace.eq_def] at hrep
    simp [h0, hb] at hrep
  | case4 b h0 hb b1 bs1 h1 ih =>
    intro hrep
    rw [utf8DecodeReplace_two b b1 bs1 hb h1] at hrep ⊢
    rw [utf8Encode_cons, encodeChar_ofNat_two _ (by omega) (by omega),
      ih (fun hm => hrep (List.mem_cons_of_mem _ hm)),
      show 0xC0 + ((b - 0xC0) * 0x40 + (b1 - 0x80)) / 0x40 = b by omega,
      show 0x80 + ((b - 0xC0) * 0x40 + (b1 - 0x80)) % 0x40 = b1 by omega]
    rfl
  | case5 b h0 hb b1 bs1 h1 ih =>
    intro hrep
    rw [utf8DecodeReplace.eq_def] at hrep
    simp [h0, hb, h1] at hrep
  | case6 b h0 h1 hb =>
    intro hrep
    rw [utf8DecodeReplace.eq_def] at hrep
    simp [h0, h1, hb] at hrep
  | case7 b h0 h1 hb b1 hc1 =>
    intro hrep
    rw [utf8DecodeReplace.eq_def] at hrep
    simp [h0, h1, hb, hc1] at hrep
  | case8 b h0 h1 hb b1 hc1 b2 bs2 hc2 ih =>
    intro hrep
    rw [utf8DecodeReplace_three b b1 b2 bs2 hb hc1 hc2] at hrep ⊢
    have hr := three_byte_range b b1 b2 _ hb hc1 hc2 rfl
    rw [utf8Encode_cons, encodeChar_ofNat_three _ hr.1 hr.2.1 hr.2.2.1,
      ih (fun hm => hrep (List.mem_cons_of_mem _ hm)),
      hr.2.2.2.1, hr.2.2.2.2.1, hr.2.2.2.2.2]
    rfl
  | case9 b h0 h1 hb b1 hc1 b2 bs2 hc2 ih =>
    intro hrep
    rw [utf8DecodeReplace.eq_def] at hrep
    simp [h0, h1, hb, hc1, hc2] at hrep
  | case10 b h0 h1 hb b1 bs1 hc1 ih =>
    intro hrep
    rw [utf8DecodeReplace.eq_def] at hrep
    simp [h0, h1, hb, hc1] at hrep
  | case11 b h0 h1 h2 hb =>
    intro hrep
    rw [utf8DecodeReplace.eq_def] at hrep
    simp [h0, h1, h2, hb] at hrep
  | case12 b h0 h1 h2 hb b1 hc1 =>
    intro hrep
    rw [utf8DecodeReplace.eq_def] at hrep
    simp [h0, h1, h2, hb, hc1] at hrep
  | case13 b h0 h1 h2 hb b1 hc1 b2 hc2 =>
    intro hrep
    rw [utf8DecodeReplace.eq_def] at hrep
    simp [h0, h1, h2, hb, hc1, hc2] at hrep
  | case14 b h0 h1 h2 hb b1 hc1 b2 hc2 b3 bs3 hc3 ih =>
    intro hrep
    rw [utf8DecodeReplace_four b b1 b2 b3 bs3 hb hc1 hc2 hc3] at hrep ⊢
    have hr := four_byte_range b b1 b2 b3 _ hb hc1 hc2 hc3 rfl
    rw [utf8Encode_cons, encodeChar_ofNat_four _ hr.1 hr.2.1,
      ih (fun hm => hrep (List.mem_cons_of_mem _ hm)),
      hr.2.2.1, hr.2.2.2.1, hr.2.2.2.2.1, hr.2.2.2.2.2]
    rfl
  | case15 b h0 h1 h2 hb b1 hc1 b2 hc2 b3 bs3 hc3 ih =>
    intro hrep
    rw [utf8DecodeReplace.eq_def] at hrep
    simp [h0, h1, h2, hb, hc1, hc2, hc3] at hrep
  | case16 b h0 h1 h2 hb b1 hc1 b2 bs2 hc2 ih =>
    intro hrep
    rw [utf8DecodeReplace.eq_def] at hrep
    simp [h0, h1, h2, hb, hc1, hc2] at hrep
  | case17 b h0 h1 h2 hb b1 bs1 hc1 ih =>
    intro hrep
    rw [utf8DecodeReplace.eq_def] at hrep
    simp [h0, h1, h2, hb, hc1] at hrep
  | case18 b bs h0 h1 h2 h3 ih =>
    intro hrep
    rw [utf8DecodeReplace.eq_def] at hrep
    simp [h0, h1, h2, h3] at hrep

theorem encodeChar_head_lt (c : Char) : ∃ b t, utf8EncodeChar c = b :: t ∧ b < 0xF5 := by
  have hv : Nat.isValidChar c.toNat := c.valid
  rw [utf8EncodeChar]
  by_cases h1 : c.toNat < 0x80
  · exact ⟨c.toNat, [], by rw [if_pos h1], by omega⟩
  · by_cases h2 : c.toNat < 0x800
    · exact ⟨_, _, by rw [if_neg h1, if_pos h2], by omega⟩
    · by_cases h3 : c.toNat < 0x10000
      · exact ⟨_, _, by rw [if_neg h1, if_neg h2, if_pos h3], by omega⟩
      · refine ⟨_, _, by rw [if_neg h1, if_neg h2, if_neg h3], ?_⟩
        rcases hv with h | h
        · omega
        · omega

theorem no_encode_ff : ¬ ∃ s : List Char, utf8Encode s = [0xFF] := by
  rintro ⟨s, hs⟩
  cases s with
  | nil => exact List.noConfusion hs
  | cons c s =>
    rw [utf8Encode_cons] at hs
    obtain ⟨b, t, he, hb⟩ := encodeChar_head_lt c
    rw [he] at hs
    simp only [List.cons_append] at hs
    have hb' : b = 0xFF := (List.cons.injEq _ _ _ _).mp hs |>.1
    omega

/-- C6: the Event body field is the request bytes decoded as UTF-8 with
replacement: decoding is a left inverse of UTF-8 encoding (valid bytes give
back exactly the original text); byte lists that are not the encoding of
any text decode — without failing — to a string containing the U+FFFD
replacement marker; an absent/empty body yields the empty string. -/
theorem body_decode_roundtrip :
    (∀ s : List Char, utf8DecodeReplace (utf8Encode s) = s) ∧
    (∀ bs : List Nat, (¬ ∃ s : List Char, utf8Encode s = bs) →
       repChar ∈ utf8DecodeReplace bs) ∧
    decodeBody [] = [] ∧
    (∀ bs : List Nat, bs ≠ [] → decodeBody bs = utf8DecodeReplace bs) := by
  refine ⟨utf8_roundtrip, ?_, rfl, ?_⟩
  · intro bs h
    by_contra hrep
    exact h ⟨utf8DecodeReplace bs, utf8_sound bs hrep⟩
  · intro bs hne
    rw [decodeBody, if_neg (by simpa [List.isEmpty_iff] using hne)]

/-- Witness for C6: the single byte 0xFF is not valid UTF-8 and decodes to
a string containing the replacement character; the encoding of "A" decodes
back to "A"; a one-byte body goes through the decoder. -/
theorem body_decode_roundtrip_witness :
    repChar ∈ utf8DecodeReplace [0xFF] ∧
    utf8DecodeReplace (utf8Encode ['A']) = ['A'] ∧
    decodeBody [0x41] = utf8DecodeReplace [0x41] := by
  exact ⟨body_decode_roundtrip.2.1 [0xFF] no_encode_ff,
    body_decode_roundtrip.1 _, body_decode_roundtrip.2.2.2 [0x41] (by decide)⟩
